import Mathlib

/-!
# Health-Monitoring-System: the AI suggestion service (`ai_suggestion_go/main.go`)

A shallow embedding of the Go service and a verification of its text
sanitizer and of the error paths of its HTTP handler.

Modelling conventions.

* A Go `string` holding text is a Lean `String`, i.e. a sequence of Unicode
  code points (the UTF-8 text the generative API returns).  The sanitizer
  works on the list of code points `String.data`.
* The Go standard-library calls made by `main.go` (`strings.ReplaceAll`,
  `regexp.ReplaceAllString`, `strings.TrimSpace`, `http.Error`) are embedded
  by their library semantics.
* Everything that is outside the process (JSON decoding of the request body,
  the environment file, the environment variable, the generative API, the
  `%+v` rendering of `fmt`) is a field of the record `World`.
* A Go `float64` is carried by its exact value, and the verb `%.1f` of `fmt`
  is embedded by its library semantics.
-/

namespace HealthMonitor

/-! ## Library functions used by the sanitizer -/

/-- Worker of `ReplaceAll`.  The first argument counts the characters of a
match that are still to be skipped; at `0` the scan looks for `old` at the
current position, and on a hit emits `new` and skips the match. -/
def replaceAllAux (old new : List Char) : Nat → List Char → List Char
  | _, [] => []
  | skip + 1, _ :: rest => replaceAllAux old new skip rest
  | 0, c :: rest =>
    if old.isPrefixOf (c :: rest) then
      new ++ replaceAllAux old new (old.length - 1) rest
    else
      c :: replaceAllAux old new 0 rest

/-- Go `strings.ReplaceAll(s, old, new)`: the non-overlapping occurrences of
`old`, found left to right, are replaced by `new`.  An empty `old` matches at
the beginning of the text and after each character. -/
def ReplaceAll (s old new : String) : String :=
  if old = "" then
    ⟨new.data ++ s.data.flatMap (fun c => c :: new.data)⟩
  else
    ⟨replaceAllAux old.data new.data 0 s.data⟩

/-- The character class of the regular expression in `postProcessContent`,
`[&{}#\[\]\*]`. -/
def symbolClass (c : Char) : Bool :=
  c = '&' || c = '{' || c = '}' || c = '#' || c = '[' || c = ']' || c = '*'

/-- Worker of `ReplaceAllString` for a pattern `[class]+`.  The flag tells
whether the previous character belonged to the current match: a maximal run
of class characters is one match and is replaced by one copy of `repl`. -/
def replaceRunsAux (cls : Char → Bool) (repl : List Char) : Bool → List Char → List Char
  | _, [] => []
  | inRun, c :: rest =>
    if cls c then
      (if inRun then [] else repl) ++ replaceRunsAux cls repl true rest
    else
      c :: replaceRunsAux cls repl false rest

/-- Go `regexp.MustCompile("[class]+").ReplaceAllString(s, repl)` for a
replacement text without `$` expansions. -/
def ReplaceAllString (cls : Char → Bool) (s repl : String) : String :=
  ⟨replaceRunsAux cls repl.data false s.data⟩

/-- Go `unicode.IsSpace`: the code points with the Unicode White_Space
property. -/
def isSpace (c : Char) : Bool :=
  let n := c.toNat
  (0x09 ≤ n && n ≤ 0x0D) || n = 0x20 || n = 0x85 || n = 0xA0 || n = 0x1680 ||
  (0x2000 ≤ n && n ≤ 0x200A) || n = 0x2028 || n = 0x2029 || n = 0x202F ||
  n = 0x205F || n = 0x3000

/-- Go `strings.TrimSpace`: the string without its leading and trailing
white space. -/
def TrimSpace (s : String) : String :=
  ⟨(s.data.dropWhile isSpace).rdropWhile isSpace⟩

/-! ## The sanitizer -/

/-- Go `postProcessContent` (main.go, lines 77-93). -/
def postProcessContent (rawContent : String) : String :=
  -- Remove specific prefixes and suffixes
  let rawContent := ReplaceAll rawContent "Parts:" ""
  let rawContent := ReplaceAll rawContent "Role:model" ""
  -- Remove symbols like &, { }, Markdown headings and extra asterisks
  let cleaned := ReplaceAllString symbolClass rawContent ""
  -- Replace double newlines with single newline
  let cleaned := ReplaceAll cleaned "\n\n" "\n"
  -- Trim any extra whitespace at the start and end
  let cleaned := TrimSpace cleaned
  cleaned

/-- The text left after the marker removal and the symbol stripping, that is,
the value of `cleaned` after line 84 of main.go. -/
def strippedContent (rawContent : String) : String :=
  ReplaceAllString symbolClass
    (ReplaceAll (ReplaceAll rawContent "Parts:" "") "Role:model" "") ""

/-- Go `strings.Contains(s, substr)`: `substr` occurs in `s` as a block of
consecutive characters. -/
abbrev Contains (s substr : String) : Prop := substr.data <:+: s.data

/-! ## Floating-point numbers and the verb `%.1f` -/

/-- Go `float64`, by exact value.  A finite number is `mant * 2 ^ exp`, negated
when `neg` is set (every finite `float64` has this form with
`mant < 2 ^ 53` and `-1074 ≤ exp ≤ 971`; negative zero is `finite true 0 _`);
the other values are the two infinities and NaN. -/
inductive Float64 where
  | finite (neg : Bool) (mant : Nat) (exp : Int)
  | inf (neg : Bool)
  | nan
  deriving DecidableEq, Repr

/-- Ten times `mant * 2 ^ exp`, rounded to the nearest integer, a tie going to
the even one: the correct rounding `strconv` applies to the exact decimal
expansion for a fixed number of decimals. -/
def roundTenths (mant : Nat) : Int → Nat
  | .ofNat k => 10 * mant * 2 ^ k
  | .negSucc k =>
    let den := 2 ^ (k + 1)
    let q := 10 * mant / den
    let r := 10 * mant % den
    if 2 * r < den then q
    else if den < 2 * r then q + 1
    else if q % 2 = 0 then q
    else q + 1

/-- Go `fmt.Sprintf("%.1f", x)`: the sign of a negative number, the integer
digits, the point and one decimal; `NaN`, `+Inf` and `-Inf` for the values
that are no numbers. -/
def sprintfFloat1 : Float64 → String
  | .nan => "NaN"
  | .inf false => "+Inf"
  | .inf true => "-Inf"
  | .finite neg mant exp =>
    (if neg then "-" else "") ++ Nat.repr (roundTenths mant exp / 10) ++ "." ++
      Nat.repr (roundTenths mant exp % 10)

/-- Go `HealthRequest` (main.go, lines 19-24). -/
structure HealthRequest where
  Temp : Float64
  Pulse : Float64
  SpO2 : Float64
  Language : String

/-- Go `HealthResponse` (main.go, lines 26-28). -/
structure HealthResponse where
  Suggestion : String

/-- The `genai.Content` of a candidate.  Only its `%+v` rendering is used. -/
structure Content where
  Parts : List String
  Role : String

/-- The `genai.Candidate`: `Content` is a pointer and may be nil (`none`). -/
structure Candidate where
  Content : Option Content

/-- The `genai.GenerateContentResponse`. -/
structure GenerateContentResponse where
  Candidates : List Candidate

/-- The collaborators of the service that live outside `main.go`.  A Go
`error` is carried by its message. -/
structure World where
  /-- The outcome of `json.NewDecoder(r.Body).Decode(&req)` on a body. -/
  jsonDecode : String → Except String HealthRequest
  /-- The text `json.NewEncoder(w).Encode` writes. -/
  jsonEncode : HealthResponse → String
  /-- The outcome of `godotenv.Load()`. -/
  dotenvLoad : Except String Unit
  /-- The process environment read by `os.Getenv` once the load returned. -/
  getenv : String → String
  /-- The outcome of `genai.NewClient` with the API key. -/
  newClient : String → Except String Unit
  /-- The outcome of `GenerateContent`, from the API key, the model name
  and the prompt. -/
  generateContent : String → String → String → Except String GenerateContentResponse
  /-- The rendering of `fmt` for the verb `%+v` on a content. -/
  sprintfPlusV : Content → String

/-- The calls that leave the process, in the order they are made. -/
inductive Event where
  | dotenvLoad
  | getenv (name : String)
  | newClient (apiKey : String)
  | generateContent (model prompt : String)
  deriving DecidableEq, Repr

/-- The prompt of `GetHealthSuggestion` (main.go, lines 51-58). -/
def buildPrompt (temp pulse spO2 : Float64) (language : String) : String :=
  "A patient has the following health readings:\n\t\t- Body Temperature: " ++
  sprintfFloat1 temp ++ "°C\n\t\t- Pulse Rate: " ++
  sprintfFloat1 pulse ++ " BPM\n\t\t- SpO₂ Level: " ++
  sprintfFloat1 spO2 ++
  "%\n\t\tBased on these values, please provide a health assessment and any recommendations in " ++
  language ++ "."

/-- Go `GetHealthSuggestion` (main.go, lines 31-74).  The result is the Go
pair `(string, error)` as an `Except`, together with the external calls made. -/
def GetHealthSuggestion (w : World) (temp pulse spO2 : Float64) (language : String) :
    Except String String × List Event :=
  -- Load API key from .env file
  match w.dotenvLoad with
  | .error _ => (.error "error loading .env file", [.dotenvLoad])
  | .ok _ =>
    let apiKey := w.getenv "GEMINI_API_KEY"
    if apiKey = "" then
      (.error "API key not set in environment", [.dotenvLoad, .getenv "GEMINI_API_KEY"])
    else
      -- Create the Gemini client
      match w.newClient apiKey with
      | .error err =>
        (.error ("failed to create Gemini client: " ++ err),
          [.dotenvLoad, .getenv "GEMINI_API_KEY", .newClient apiKey])
      | .ok _ =>
        let prompt := buildPrompt temp pulse spO2 language
        let trace : List Event :=
          [.dotenvLoad, .getenv "GEMINI_API_KEY", .newClient apiKey,
            .generateContent "gemini-1.5-flash" prompt]
        -- Generate content using Gemini
        match w.generateContent apiKey "gemini-1.5-flash" prompt with
        | .error err => (.error ("failed to generate content: " ++ err), trace)
        | .ok resp =>
          -- len(resp.Candidates) > 0 && resp.Candidates[0].Content != nil
          match resp.Candidates with
          | ⟨some content⟩ :: _ =>
            let rawContent := w.sprintfPlusV content
            let cleanedContent := postProcessContent rawContent
            (.ok cleanedContent, trace)
          | _ => (.error "no suggestions returned from Gemini", trace)

/-- What the handler wrote to its `http.ResponseWriter`. -/
structure Response where
  status : Nat
  header : List (String × String)
  body : String
  deriving DecidableEq, Repr

/-- Go `http.Error(w, error, code)`: sets the plain-text headers, writes the
status code and prints the message with `fmt.Fprintln`, which ends the line. -/
def httpError (error : String) (code : Nat) : Response :=
  { status := code
    header := [("Content-Type", "text/plain; charset=utf-8"),
               ("X-Content-Type-Options", "nosniff")]
    body := error ++ "\n" }

/-- Go `http.StatusBadRequest`. -/
def StatusBadRequest : Nat := 400

/-- Go `http.StatusInternalServerError`. -/
def StatusInternalServerError : Nat := 500

/-- Go `http.StatusOK`, the status of a response written without
`WriteHeader`. -/
def StatusOK : Nat := 200

/-- The request as the handler sees it: only the body is read. -/
structure Request where
  Body : String

/-- Go `suggestionHandler` (main.go, lines 96-112): the response written and
the external calls made while handling the request. -/
def suggestionHandler (w : World) (r : Request) : Response × List Event :=
  match w.jsonDecode r.Body with
  | .error _ => (httpError "Invalid request payload" StatusBadRequest, [])
  | .ok req =>
    match GetHealthSuggestion w req.Temp req.Pulse req.SpO2 req.Language with
    | (.error err, trace) =>
      (httpError ("Failed to get suggestion: " ++ err) StatusInternalServerError, trace)
    | (.ok suggestion, trace) =>
      let response : HealthResponse := { Suggestion := suggestion }
      ({ status := StatusOK
         header := [("Content-Type", "application/json")]
         body := w.jsonEncode response }, trace)

/-- The external API call of line 61 is reached (environment file loaded,
credential present, client created) and returns `resp` without error. -/
def ApiCallReturns (w : World) (temp pulse spO2 : Float64) (language : String)
    (resp : GenerateContentResponse) : Prop :=
  w.dotenvLoad = .ok () ∧
  w.getenv "GEMINI_API_KEY" ≠ "" ∧
  w.newClient (w.getenv "GEMINI_API_KEY") = .ok () ∧
  w.generateContent (w.getenv "GEMINI_API_KEY") "gemini-1.5-flash"
    (buildPrompt temp pulse spO2 language) = .ok resp

/-! ## Sample worlds and requests -/

/-- A request with a well-formed reading. -/
def sampleRequest : HealthRequest :=
  { Temp := .finite false 5150992073805005 (-47)  -- 36.6
    Pulse := .finite false 72 0                    -- 72
    SpO2 := .finite false 197 (-1)                 -- 98.5
    Language := "English" }

/-- A world in which every collaborator works and the API answers with the
given candidates. -/
def worldWith (candidates : List Candidate) : World :=
  { jsonDecode := fun _ => .ok sampleRequest
    jsonEncode := fun resp => "\x7b\"suggestion\":\"" ++ resp.Suggestion ++ "\"\x7d\n"
    dotenvLoad := .ok ()
    getenv := fun name => if name = "GEMINI_API_KEY" then "k" else ""
    newClient := fun _ => .ok ()
    generateContent := fun _ _ _ => .ok ⟨candidates⟩
    sprintfPlusV := fun c =>
      "&\x7bParts:[" ++ " ".intercalate c.Parts ++ "] Role:" ++ c.Role ++ "\x7d" }

/-- A world that rejects every request body. -/
def worldBadBody : World :=
  { worldWith [] with jsonDecode := fun _ => .error "unexpected end of JSON input" }

/-- A world without environment file and without credential. -/
def worldNoEnvFile : World :=
  { worldWith [] with
    dotenvLoad := .error "open .env: no such file or directory"
    getenv := fun _ => "" }

/-- A world whose environment file loads but leaves the credential unset. -/
def worldNoKey : World :=
  { worldWith [] with getenv := fun _ => "" }

/-! ## Lemmas on `ReplaceAll` -/

theorem replaceAllAux_skip (old new : List Char) :
    ∀ (k : Nat) (s : List Char),
      replaceAllAux old new k s = replaceAllAux old new 0 (s.drop k)
  | 0, s => by simp
  | k + 1, [] => by simp [replaceAllAux]
  | k + 1, _ :: rest => by
    simp only [replaceAllAux, List.drop_succ_cons]
    exact replaceAllAux_skip old new k rest

/-- At an occurrence of `old` the scan emits `new` and resumes after it. -/
theorem replaceAllAux_hit {old : List Char} (new : List Char) (hold : old ≠ [])
    (t : List Char) :
    replaceAllAux old new 0 (old ++ t) = new ++ replaceAllAux old new 0 t := by
  obtain ⟨a, l, rfl⟩ := List.exists_cons_of_ne_nil hold
  have hp : (a :: l).isPrefixOf (a :: (l ++ t)) = true := by
    rw [List.isPrefixOf_iff_prefix]
    exact ⟨t, rfl⟩
  rw [List.cons_append, replaceAllAux, if_pos hp, replaceAllAux_skip]
  simp

/-- Where `old` does not start, the scan copies one character. -/
theorem replaceAllAux_miss {old : List Char} (new : List Char) {c : Char}
    {rest : List Char} (h : ¬ old <+: c :: rest) :
    replaceAllAux old new 0 (c :: rest) = c :: replaceAllAux old new 0 rest := by
  have hp : ¬ old.isPrefixOf (c :: rest) = true := by
    rw [List.isPrefixOf_iff_prefix]
    exact h
  rw [replaceAllAux, if_neg hp]

/-- Induction along the scan of `ReplaceAll`. -/
theorem replaceAll_induction (old : List Char) (hold : old ≠ [])
    {P : List Char → Prop} (nil : P [])
    (hit : ∀ t, P t → P (old ++ t))
    (miss : ∀ c rest, ¬ old <+: c :: rest → P rest → P (c :: rest)) :
    ∀ s, P s := by
  suffices h : ∀ (n : Nat) (s : List Char), s.length = n → P s from
    fun s => h s.length s rfl
  intro n
  induction n using Nat.strong_induction_on with
  | _ n ih =>
    intro s hn
    cases s with
    | nil => exact nil
    | cons c rest =>
      simp only [List.length_cons] at hn
      by_cases hp : old <+: c :: rest
      · obtain ⟨t, ht⟩ := hp
        rw [← ht]
        refine hit t (ih t.length ?_ t rfl)
        have hl : 0 < old.length := List.length_pos.mpr hold
        have := congrArg List.length ht
        simp only [List.length_append, List.length_cons] at this
        omega
      · refine miss c rest hp (ih rest.length ?_ rest rfl)
        omega

/-- Replacing by a subsequence of the pattern only deletes characters. -/
theorem replaceAllAux_sublist (old new : List Char) (hold : old ≠ [])
    (hnew : new.Sublist old) (s : List Char) :
    (replaceAllAux old new 0 s).Sublist s := by
  refine replaceAll_induction old hold (P := fun s => (replaceAllAux old new 0 s).Sublist s)
    ?_ ?_ ?_ s
  · simp [replaceAllAux]
  · intro t ih
    rw [replaceAllAux_hit new hold]
    exact hnew.append ih
  · intro c rest hp ih
    rw [replaceAllAux_miss new hp]
    exact ih.cons₂ c

/-- Without an occurrence of the pattern the text is left as it is. -/
theorem replaceAllAux_eq_self (old new : List Char) :
    ∀ s : List Char, ¬ old <:+: s → replaceAllAux old new 0 s = s
  | [], _ => by simp [replaceAllAux]
  | c :: rest, h => by
    have hp : ¬ old <+: c :: rest := fun hp => h hp.isInfix
    have hr : ¬ old <:+: rest := fun hr => h (List.infix_cons hr)
    rw [replaceAllAux_miss new hp, replaceAllAux_eq_self old new rest hr]

/-- The newline collapse keeps the first character. -/
theorem collapse_head (s : List Char) :
    (replaceAllAux ['\n', '\n'] ['\n'] 0 s).head? = s.head? := by
  cases s with
  | nil => simp [replaceAllAux]
  | cons c rest =>
    by_cases hp : ['\n', '\n'] <+: c :: rest
    · obtain ⟨t, ht⟩ := hp
      rw [← ht, replaceAllAux_hit _ (by simp)]
      simp
    · rw [replaceAllAux_miss _ hp]
      simp

/-- A text without three newlines in a row has no doubled newline left after
the collapse. -/
theorem collapse_no_double (s : List Char) :
    ¬ ['\n', '\n', '\n'] <:+: s →
      ¬ ['\n', '\n'] <:+: replaceAllAux ['\n', '\n'] ['\n'] 0 s := by
  refine replaceAll_induction ['\n', '\n'] (by simp)
    (P := fun s => ¬ ['\n', '\n', '\n'] <:+: s →
      ¬ ['\n', '\n'] <:+: replaceAllAux ['\n', '\n'] ['\n'] 0 s) ?_ ?_ ?_ s
  · intro _ h
    have hl := h.length_le
    simp [replaceAllAux] at hl
  · intro t ih h3
    rw [replaceAllAux_hit _ (by simp)]
    have ht : ¬ ['\n', '\n', '\n'] <:+: t := fun h =>
      h3 (h.trans (List.suffix_append _ t).isInfix)
    have hhead : t.head? ≠ some '\n' := by
      intro hh
      cases t with
      | nil => simp at hh
      | cons d t' =>
        simp only [List.head?_cons, Option.some.injEq] at hh
        subst hh
        exact h3 (List.IsPrefix.isInfix ⟨t', rfl⟩)
    intro h2
    rw [List.singleton_append, List.infix_cons_iff] at h2
    rcases h2 with h2 | h2
    · apply hhead
      rw [← collapse_head t]
      obtain ⟨u, hu⟩ := h2
      simp only [List.cons_append, List.cons.injEq, true_and] at hu
      rw [← hu]
      rfl
    · exact ih ht h2
  · intro c rest hp ih h3
    rw [replaceAllAux_miss _ hp]
    have hr : ¬ ['\n', '\n', '\n'] <:+: rest := fun h => h3 (List.infix_cons h)
    intro h2
    rw [List.infix_cons_iff] at h2
    rcases h2 with h2 | h2
    · obtain ⟨u, hu⟩ := h2
      simp only [List.cons_append, List.cons.injEq] at hu
      obtain ⟨hc, hu⟩ := hu
      have hh : rest.head? = some '\n' := by
        rw [← collapse_head rest, ← hu]
        rfl
      cases rest with
      | nil => simp at hh
      | cons d rest' =>
        simp only [List.head?_cons, Option.some.injEq] at hh
        subst hh
        subst hc
        exact hp ⟨rest', rfl⟩
    · exact ih hr h2

/-! ## Lemmas on `ReplaceAllString` and `TrimSpace` -/

/-- With the empty replacement, every class character is deleted. -/
theorem replaceRunsAux_nil (cls : Char → Bool) :
    ∀ (b : Bool) (s : List Char),
      replaceRunsAux cls [] b s = s.filter (fun c => !cls c)
  | _, [] => by simp [replaceRunsAux]
  | b, c :: rest => by
    by_cases hc : cls c = true
    · simp [replaceRunsAux, hc, replaceRunsAux_nil cls true rest]
    · simp [replaceRunsAux, hc, replaceRunsAux_nil cls false rest]

/-- A non-empty prefix starts with the first character of the whole. -/
theorem get_zero_of_isPrefix {t u : List Char} (h : t <+: u) (ht : 0 < t.length)
    (hu : 0 < u.length) : t.get ⟨0, ht⟩ = u.get ⟨0, hu⟩ := by
  obtain ⟨v, rfl⟩ := h
  cases t with
  | nil => simp at ht
  | cons a t => rfl

/-- The trimmed text is a block of the text. -/
theorem trim_isInfix (s : List Char) :
    (s.dropWhile isSpace).rdropWhile isSpace <:+: s :=
  (List.rdropWhile_prefix isSpace _).isInfix.trans (List.dropWhile_suffix isSpace).isInfix

/-- Trimming a trimmed text changes nothing. -/
theorem trim_trim (s : List Char) :
    (((s.dropWhile isSpace).rdropWhile isSpace).dropWhile isSpace).rdropWhile isSpace
      = (s.dropWhile isSpace).rdropWhile isSpace := by
  have h1 : ((s.dropWhile isSpace).rdropWhile isSpace).dropWhile isSpace
      = (s.dropWhile isSpace).rdropWhile isSpace := by
    rw [List.dropWhile_eq_self_iff]
    intro hl
    obtain ⟨u, hu⟩ := List.rdropWhile_prefix isSpace (s.dropWhile isSpace)
    have hl2 : 0 < (s.dropWhile isSpace).length := by
      rw [← hu, List.length_append]
      omega
    rw [get_zero_of_isPrefix (List.rdropWhile_prefix isSpace _) hl hl2]
    exact List.dropWhile_get_zero_not isSpace s hl2
  rw [h1, List.rdropWhile_idempotent]

/-! ## The sanitizer, step by step -/

/-- The characters of the stripped text. -/
theorem strippedContent_data (s : String) :
    (strippedContent s).data =
      (replaceAllAux "Role:model".data [] 0
        (replaceAllAux "Parts:".data [] 0 s.data)).filter (fun c => !symbolClass c) :=
  replaceRunsAux_nil symbolClass false _

/-- The characters of the sanitized text. -/
theorem postProcessContent_data (s : String) :
    (postProcessContent s).data =
      ((replaceAllAux ['\n', '\n'] ['\n'] 0 (strippedContent s).data).dropWhile
        isSpace).rdropWhile isSpace :=
  rfl

/-- The sanitized text is a subsequence of the stripped text. -/
theorem postProcessContent_sublist_stripped (s : String) :
    (postProcessContent s).data.Sublist (strippedContent s).data := by
  rw [postProcessContent_data]
  exact (trim_isInfix _).sublist.trans
    (replaceAllAux_sublist ['\n', '\n'] ['\n'] (by simp) (by simp) _)

/-- The stripped text is a subsequence of the input. -/
theorem strippedContent_sublist (s : String) :
    (strippedContent s).data.Sublist s.data := by
  rw [strippedContent_data]
  exact (List.filter_sublist _).trans
    ((replaceAllAux_sublist _ [] (by decide) (List.nil_sublist _) _).trans
      (replaceAllAux_sublist _ [] (by decide) (List.nil_sublist _) _))

/-- No class character is left in the sanitized text. -/
theorem symbolClass_of_mem {s : String} {c : Char}
    (hc : c ∈ (postProcessContent s).data) : symbolClass c = false := by
  have h := (postProcessContent_sublist_stripped s).subset hc
  rw [strippedContent_data, List.mem_filter] at h
  simpa using h.2

/-- Replacing an occurrence by something shorter shortens the text. -/
theorem replaceAllAux_length_lt (old new : List Char) (hold : old ≠ [])
    (hlen : new.length < old.length) (s : List Char) :
    old <:+: s → (replaceAllAux old new 0 s).length < s.length := by
  have hle : ∀ t : List Char, (replaceAllAux old new 0 t).length ≤ t.length := by
    refine replaceAll_induction old hold
      (P := fun t => (replaceAllAux old new 0 t).length ≤ t.length) ?_ ?_ ?_
    · simp [replaceAllAux]
    · intro t ih
      rw [replaceAllAux_hit new hold]
      simp only [List.length_append]
      omega
    · intro c rest hp ih
      rw [replaceAllAux_miss new hp]
      simp only [List.length_cons]
      omega
  refine replaceAll_induction old hold
    (P := fun s => old <:+: s → (replaceAllAux old new 0 s).length < s.length)
    ?_ ?_ ?_ s
  · intro h
    exact absurd (List.eq_nil_of_infix_nil h) hold
  · intro t _ _
    rw [replaceAllAux_hit new hold]
    have := hle t
    simp only [List.length_append]
    omega
  · intro c rest hp ih h
    rw [replaceAllAux_miss new hp]
    rcases List.infix_cons_iff.mp h with h | h
    · exact absurd h hp
    · have := ih h
      simp only [List.length_cons]
      omega

/-- A subsequence takes no more bytes of UTF-8. -/
theorem utf8ByteSize_go_le {l₁ l₂ : List Char} (h : l₁.Sublist l₂) :
    String.utf8ByteSize.go l₁ ≤ String.utf8ByteSize.go l₂ := by
  induction h with
  | slnil => exact Nat.le_refl _
  | cons a _ ih =>
    simp only [String.utf8ByteSize.go]
    omega
  | cons₂ a _ ih =>
    simp only [String.utf8ByteSize.go]
    omega

/-! ## Lemmas on `%.1f` -/

/-- The tenths chosen by `roundTenths` are nearest to ten times the number:
for a negative exponent `-(k + 1)` the error is at most half a tenth. -/
theorem roundTenths_nearest (mant k : Nat) :
    2 * (10 * mant - roundTenths mant (Int.negSucc k) * 2 ^ (k + 1)) ≤ 2 ^ (k + 1) ∧
    2 * (roundTenths mant (Int.negSucc k) * 2 ^ (k + 1) - 10 * mant) ≤ 2 ^ (k + 1) := by
  have hden : 0 < 2 ^ (k + 1) := Nat.pow_pos (by decide)
  have hdm := Nat.div_add_mod (10 * mant) (2 ^ (k + 1))
  have hr := Nat.mod_lt (10 * mant) hden
  simp only [roundTenths]
  generalize 10 * mant % 2 ^ (k + 1) = r at *
  generalize 10 * mant / 2 ^ (k + 1) = q at *
  generalize 10 * mant = a at *
  generalize 2 ^ (k + 1) = den at *
  have hq : q * den = den * q := Nat.mul_comm _ _
  have hq1 : (q + 1) * den = den * q + den := by rw [Nat.add_mul, hq, Nat.one_mul]
  split
  · rw [hq]
    omega
  · split
    · rw [hq1]
      omega
    · split
      · rw [hq]
        omega
      · rw [hq1]
        omega

/-- C1: the sanitizer maps the sample response of the specification (markers
"Parts:" and "Role:model", brackets, braces, a hash mark and a doubled
newline around the two sentences) to "Text: Stay hydrated.<LF>Rest well.". -/
theorem C1_sanitizer_example :
    postProcessContent "Parts:[\x7bText: Stay hydrated.\n\n#Rest well.\x7d] Role:model"
      = "Text: Stay hydrated.\nRest well." := by
  decide

/-- C3: the output of the sanitizer contains none of the target symbols
`&`, `{`, `}`, `[`, `]`, `#`, `*`, for every input. -/
theorem C3_no_target_symbol (s : String) :
    '&' ∉ (postProcessContent s).data ∧ '{' ∉ (postProcessContent s).data ∧
    '}' ∉ (postProcessContent s).data ∧ '[' ∉ (postProcessContent s).data ∧
    ']' ∉ (postProcessContent s).data ∧ '#' ∉ (postProcessContent s).data ∧
    '*' ∉ (postProcessContent s).data := by
  refine ⟨?_, ?_, ?_, ?_, ?_, ?_, ?_⟩ <;>
    exact fun h => absurd (symbolClass_of_mem h) (by decide)

/-- C10: the sanitizer only deletes characters: its output is a subsequence
of its input, and so is not longer than the input, counted in characters or
in bytes of UTF-8 (the Go `len`). -/
theorem C10_output_subsequence (s : String) :
    (postProcessContent s).data.Sublist s.data ∧
    (postProcessContent s).length ≤ s.length ∧
    (postProcessContent s).utf8ByteSize ≤ s.utf8ByteSize := by
  have h := (postProcessContent_sublist_stripped s).trans (strippedContent_sublist s)
  exact ⟨h, h.length_le, utf8ByteSize_go_le h⟩

/-- C4, as stated, fails: three newlines in a row leave a doubled newline in
the output. -/
theorem C4_counterexample :
    postProcessContent "a\n\n\nb" = "a\n\nb" ∧
    Contains (postProcessContent "a\n\n\nb") "\n\n" := by
  decide

/-- C4, amended: when the stripped text (markers and symbols removed) has no
three newlines in a row, the output of the sanitizer contains no doubled
newline. -/
theorem C4_no_doubled_newline (s : String)
    (h : ¬ Contains (strippedContent s) "\n\n\n") :
    ¬ Contains (postProcessContent s) "\n\n" := by
  intro h2
  have h3 : ['\n', '\n'] <:+: (postProcessContent s).data := h2
  rw [postProcessContent_data] at h3
  exact collapse_no_double _ h (h3.trans (trim_isInfix _))

/-- C4, amended, at the input "a<LF><LF>b". -/
theorem C4_no_doubled_newline_witness :
    ¬ Contains (strippedContent "a\n\nb") "\n\n\n" ∧
    ¬ Contains (postProcessContent "a\n\nb") "\n\n" :=
  ⟨by decide, C4_no_doubled_newline "a\n\nb" (by decide)⟩

/-- C2, as stated, fails: a doubled newline left by three newlines in a row,
and a marker formed by the deletions, are removed only by a second pass. -/
theorem C2_counterexample :
    postProcessContent (postProcessContent "a\n\n\nb") ≠ postProcessContent "a\n\n\nb" ∧
    postProcessContent (postProcessContent "ParParts:ts:")
      ≠ postProcessContent "ParParts:ts:" ∧
    postProcessContent (postProcessContent "Role:#model")
      ≠ postProcessContent "Role:#model" := by
  decide

/-- C2, amended: sanitizing a sanitized text changes nothing exactly when the
sanitized text contains no marker "Parts:", no marker "Role:model" and no
doubled newline; in particular the sanitizer is idempotent on every input
whose output is free of these three. -/
theorem C2_idempotent_iff (s : String) :
    postProcessContent (postProcessContent s) = postProcessContent s ↔
      ¬ Contains (postProcessContent s) "Parts:" ∧
      ¬ Contains (postProcessContent s) "Role:model" ∧
      ¬ Contains (postProcessContent s) "\n\n" := by
  have hfilter : ∀ l : List Char, l.Sublist (postProcessContent s).data →
      l.filter (fun c => !symbolClass c) = l := by
    intro l hl
    rw [List.filter_eq_self]
    intro c hc
    simp [symbolClass_of_mem (hl.subset hc)]
  have htrim : (((postProcessContent s).data.dropWhile isSpace).rdropWhile isSpace)
      = (postProcessContent s).data := by
    rw [postProcessContent_data]
    exact trim_trim _
  have hsub1 := replaceAllAux_sublist "Parts:".data []
    (by decide) (List.nil_sublist _) (postProcessContent s).data
  have hsub2 := replaceAllAux_sublist "Role:model".data []
    (by decide) (List.nil_sublist _)
    (replaceAllAux "Parts:".data [] 0 (postProcessContent s).data)
  have hsub3 := postProcessContent_sublist_stripped (postProcessContent s)
  have hlen1 := hsub1.length_le
  have hlen2 := hsub2.length_le
  have hlen3 := hsub3.length_le
  have hlen4 : (strippedContent (postProcessContent s)).data.length ≤
      (replaceAllAux "Role:model".data [] 0
        (replaceAllAux "Parts:".data [] 0 (postProcessContent s).data)).length := by
    rw [strippedContent_data]
    exact (List.filter_sublist _).length_le
  constructor
  · intro heq
    have hlen : (postProcessContent (postProcessContent s)).data.length
        = (postProcessContent s).data.length := by rw [heq]
    have hP : ¬ Contains (postProcessContent s) "Parts:" := by
      intro h
      have := replaceAllAux_length_lt "Parts:".data []
        (by decide) (by decide) _ h
      omega
    have e1 := replaceAllAux_eq_self "Parts:".data [] _ hP
    rw [e1] at hlen4 hsub2 hlen2
    have hR : ¬ Contains (postProcessContent s) "Role:model" := by
      intro h
      have := replaceAllAux_length_lt "Role:model".data []
        (by decide) (by decide) _ h
      omega
    have e2 := replaceAllAux_eq_self "Role:model".data [] _ hR
    have e3 : (strippedContent (postProcessContent s)).data
        = (postProcessContent s).data := by
      rw [strippedContent_data, e1, e2]
      exact hfilter _ (List.Sublist.refl _)
    refine ⟨hP, hR, ?_⟩
    intro h
    have := replaceAllAux_length_lt ['\n', '\n'] ['\n']
      (by simp) (by simp) _ h
    have hl5 : (postProcessContent (postProcessContent s)).data.length ≤
        (replaceAllAux ['\n', '\n'] ['\n'] 0 (postProcessContent s).data).length := by
      rw [postProcessContent_data (postProcessContent s), e3]
      exact (trim_isInfix _).sublist.length_le
    omega
  · rintro ⟨hP, hR, hN⟩
    have e1 := replaceAllAux_eq_self "Parts:".data [] _ hP
    have e2 := replaceAllAux_eq_self "Role:model".data [] _ hR
    have e3 : (strippedContent (postProcessContent s)).data
        = (postProcessContent s).data := by
      rw [strippedContent_data, e1, e2]
      exact hfilter _ (List.Sublist.refl _)
    have e4 := replaceAllAux_eq_self ['\n', '\n'] ['\n'] _ hN
    apply String.ext
    rw [postProcessContent_data (postProcessContent s), e3, e4]
    exact htrim

/-- C2, amended, at the sample response of the specification: its sanitized
text is a fixed point of the sanitizer. -/
theorem C2_idempotent_iff_witness :
    postProcessContent (postProcessContent
        "Parts:[\x7bText: Stay hydrated.\n\n#Rest well.\x7d] Role:model")
      = postProcessContent "Parts:[\x7bText: Stay hydrated.\n\n#Rest well.\x7d] Role:model" :=
  (C2_idempotent_iff "Parts:[\x7bText: Stay hydrated.\n\n#Rest well.\x7d] Role:model").mpr
    (by decide)

/-! ## The handler -/

/-- Every run of `GetHealthSuggestion` makes an external call. -/
theorem GetHealthSuggestion_trace_ne_nil (w : World) (temp pulse spO2 : Float64)
    (language : String) : (GetHealthSuggestion w temp pulse spO2 language).2 ≠ [] := by
  unfold GetHealthSuggestion
  split
  · simp
  · dsimp only
    split
    · simp
    · split
      · simp
      · split
        · simp
        · split <;> simp

/-- The result of `GetHealthSuggestion` once the API call has returned. -/
theorem GetHealthSuggestion_of_returns {w : World} {temp pulse spO2 : Float64}
    {language : String} {resp : GenerateContentResponse}
    (h : ApiCallReturns w temp pulse spO2 language resp) :
    (GetHealthSuggestion w temp pulse spO2 language).1 =
      match resp.Candidates with
      | ⟨some content⟩ :: _ => .ok (postProcessContent (w.sprintfPlusV content))
      | _ => .error "no suggestions returned from Gemini" := by
  obtain ⟨h1, h2, h3, h4⟩ := h
  unfold GetHealthSuggestion
  simp only [h1, h2, h3, h4, if_false]
  split <;> rfl

/-- The response to a decoded request whose suggestion failed. -/
theorem suggestionHandler_of_error {w : World} {r : Request} {req : HealthRequest}
    {err : String} (hd : w.jsonDecode r.Body = .ok req)
    (hg : (GetHealthSuggestion w req.Temp req.Pulse req.SpO2 req.Language).1 = .error err) :
    (suggestionHandler w r).1
      = httpError ("Failed to get suggestion: " ++ err) StatusInternalServerError := by
  unfold suggestionHandler
  rw [hd]
  dsimp only
  cases hres : GetHealthSuggestion w req.Temp req.Pulse req.SpO2 req.Language with
  | mk res trace =>
    rw [hres] at hg
    dsimp only at hg
    subst hg
    rfl

/-- C5, as stated, fails: the body written for a malformed request ends with
a line feed, so it is not exactly the static message. -/
theorem C5_counterexample :
    worldBadBody.jsonDecode "\x7b" = .error "unexpected end of JSON input" ∧
    (suggestionHandler worldBadBody ⟨"\x7b"⟩).1.status = 400 ∧
    (suggestionHandler worldBadBody ⟨"\x7b"⟩).1.body ≠ "Invalid request payload" :=
  ⟨rfl, by decide, by decide⟩

/-- C5, amended: for every request whose body fails to decode, the handler
answers with status 400 and a body that is exactly the message
"Invalid request payload" followed by one line feed, and makes no external
call, whereas every run of GetHealthSuggestion makes one: it is not invoked. -/
theorem C5_malformed_body (w : World) (r : Request) (e : String)
    (h : w.jsonDecode r.Body = .error e) :
    (suggestionHandler w r).1.status = 400 ∧
    (suggestionHandler w r).1.body = "Invalid request payload\n" ∧
    (suggestionHandler w r).2 = [] ∧
    ∀ (temp pulse spO2 : Float64) (language : String),
      (GetHealthSuggestion w temp pulse spO2 language).2 ≠ (suggestionHandler w r).2 := by
  have hs : suggestionHandler w r
      = (httpError "Invalid request payload" StatusBadRequest, []) := by
    unfold suggestionHandler
    rw [h]
  rw [hs]
  exact ⟨rfl, by decide, rfl, fun t p o l => GetHealthSuggestion_trace_ne_nil w t p o l⟩

/-- C5, amended, in a world that rejects the body. -/
theorem C5_malformed_body_witness :
    worldBadBody.jsonDecode (Request.mk "\x7b").Body = .error "unexpected end of JSON input" ∧
    (suggestionHandler worldBadBody ⟨"\x7b"⟩).1.status = 400 ∧
    (suggestionHandler worldBadBody ⟨"\x7b"⟩).1.body = "Invalid request payload\n" :=
  ⟨rfl, (C5_malformed_body worldBadBody ⟨"\x7b"⟩ _ rfl).1,
    (C5_malformed_body worldBadBody ⟨"\x7b"⟩ _ rfl).2.1⟩

/-- C6, as stated, fails: the body written when the API returns no candidate
ends with a line feed, so it is not the bare message. -/
theorem C6_counterexample :
    ApiCallReturns (worldWith []) sampleRequest.Temp sampleRequest.Pulse
      sampleRequest.SpO2 sampleRequest.Language ⟨[]⟩ ∧
    (suggestionHandler (worldWith []) ⟨"\x7b\x7d"⟩).1.status = 500 ∧
    (suggestionHandler (worldWith []) ⟨"\x7b\x7d"⟩).1.body
      ≠ "Failed to get suggestion: no suggestions returned from Gemini" :=
  ⟨⟨rfl, by decide, rfl, rfl⟩, by decide, by decide⟩

/-- C6, amended: for every decoded request for which the API call returns
zero candidates, GetHealthSuggestion fails with the message
"no suggestions returned from Gemini" and the handler answers with status 500
and the body "Failed to get suggestion: no suggestions returned from Gemini"
followed by one line feed. -/
theorem C6_zero_candidates (w : World) (r : Request) (req : HealthRequest)
    (hd : w.jsonDecode r.Body = .ok req)
    (h : ApiCallReturns w req.Temp req.Pulse req.SpO2 req.Language ⟨[]⟩) :
    (GetHealthSuggestion w req.Temp req.Pulse req.SpO2 req.Language).1
      = .error "no suggestions returned from Gemini" ∧
    (suggestionHandler w r).1.status = 500 ∧
    (suggestionHandler w r).1.body
      = "Failed to get suggestion: no suggestions returned from Gemini\n" := by
  have hg : (GetHealthSuggestion w req.Temp req.Pulse req.SpO2 req.Language).1
      = .error "no suggestions returned from Gemini" :=
    GetHealthSuggestion_of_returns h
  rw [suggestionHandler_of_error hd hg]
  exact ⟨hg, rfl, by decide⟩

/-- C6, amended, in a world whose API returns no candidate. -/
theorem C6_zero_candidates_witness :
    (worldWith []).jsonDecode (Request.mk "\x7b\x7d").Body = .ok sampleRequest ∧
    ApiCallReturns (worldWith []) sampleRequest.Temp sampleRequest.Pulse
      sampleRequest.SpO2 sampleRequest.Language ⟨[]⟩ ∧
    (suggestionHandler (worldWith []) ⟨"\x7b\x7d"⟩).1.body
      = "Failed to get suggestion: no suggestions returned from Gemini\n" :=
  ⟨rfl, ⟨rfl, by decide, rfl, rfl⟩,
    (C6_zero_candidates (worldWith []) ⟨"\x7b\x7d"⟩ sampleRequest rfl
      ⟨rfl, by decide, rfl, rfl⟩).2.2⟩

/-- C7, as stated, fails: with the credential missing and the environment
file failing to load, the body reports the load error and does not mention
the API key. -/
theorem C7_counterexample :
    worldNoEnvFile.getenv "GEMINI_API_KEY" = "" ∧
    (suggestionHandler worldNoEnvFile ⟨"\x7b\x7d"⟩).1.status = 500 ∧
    (suggestionHandler worldNoEnvFile ⟨"\x7b\x7d"⟩).1.body
      = "Failed to get suggestion: error loading .env file\n" ∧
    ¬ Contains (suggestionHandler worldNoEnvFile ⟨"\x7b\x7d"⟩).1.body "API key not set" := by
  decide

/-- C7, amended: for every decoded request handled while GEMINI_API_KEY is
missing, the handler answers with status 500, and the body contains
"API key not set" exactly when the environment file loaded; when the load
fails the body reports the load error instead. -/
theorem C7_missing_key (w : World) (r : Request) (req : HealthRequest)
    (hd : w.jsonDecode r.Body = .ok req)
    (hk : w.getenv "GEMINI_API_KEY" = "") :
    (suggestionHandler w r).1.status = 500 ∧
    (Contains (suggestionHandler w r).1.body "API key not set" ↔ w.dotenvLoad = .ok ()) ∧
    (w.dotenvLoad ≠ .ok () →
      (suggestionHandler w r).1.body
        = "Failed to get suggestion: error loading .env file\n") := by
  cases hl : w.dotenvLoad with
  | error e =>
    have hg : (GetHealthSuggestion w req.Temp req.Pulse req.SpO2 req.Language).1
        = .error "error loading .env file" := by
      unfold GetHealthSuggestion
      rw [hl]
    rw [suggestionHandler_of_error hd hg]
    refine ⟨rfl, ⟨fun h => absurd h (by decide), fun h => by cases h⟩, fun _ => by decide⟩
  | ok u =>
    have hg : (GetHealthSuggestion w req.Temp req.Pulse req.SpO2 req.Language).1
        = .error "API key not set in environment" := by
      unfold GetHealthSuggestion
      rw [hl]
      simp only [hk, if_true]
    rw [suggestionHandler_of_error hd hg]
    exact ⟨rfl, ⟨fun _ => rfl, fun _ => by decide⟩, fun h => absurd rfl h⟩

/-- C7, amended, in a world whose environment file loads without the
credential. -/
theorem C7_missing_key_witness :
    worldNoKey.jsonDecode (Request.mk "\x7b\x7d").Body = .ok sampleRequest ∧
    worldNoKey.getenv "GEMINI_API_KEY" = "" ∧
    (suggestionHandler worldNoKey ⟨"\x7b\x7d"⟩).1.status = 500 ∧
    Contains (suggestionHandler worldNoKey ⟨"\x7b\x7d"⟩).1.body "API key not set" :=
  ⟨rfl, rfl, (C7_missing_key worldNoKey ⟨"\x7b\x7d"⟩ sampleRequest rfl rfl).1,
    (C7_missing_key worldNoKey ⟨"\x7b\x7d"⟩ sampleRequest rfl rfl).2.1.mpr rfl⟩

/-- C8, as stated, fails: the API call returns a non-empty candidate list
whose first candidate has nil content, and GetHealthSuggestion fails with
"no suggestions returned from Gemini". -/
theorem C8_counterexample :
    ApiCallReturns (worldWith [⟨none⟩]) sampleRequest.Temp sampleRequest.Pulse
      sampleRequest.SpO2 sampleRequest.Language ⟨[⟨none⟩]⟩ ∧
    ([⟨none⟩] : List Candidate) ≠ [] ∧
    (GetHealthSuggestion (worldWith [⟨none⟩]) sampleRequest.Temp sampleRequest.Pulse
      sampleRequest.SpO2 sampleRequest.Language).1
      = .error "no suggestions returned from Gemini" :=
  ⟨⟨rfl, by decide, rfl, rfl⟩, by simp, rfl⟩

/-- C8, amended: whenever the API call returns a candidate list whose first
candidate has non-nil content, GetHealthSuggestion succeeds with the
sanitized rendering of that content; it fails with
"no suggestions returned from Gemini" exactly when the list is empty or its
first candidate has nil content. -/
theorem C8_first_candidate (w : World) (temp pulse spO2 : Float64) (language : String)
    (resp : GenerateContentResponse)
    (h : ApiCallReturns w temp pulse spO2 language resp) :
    (∀ (content : Content) (rest : List Candidate),
      resp.Candidates = ⟨some content⟩ :: rest →
      (GetHealthSuggestion w temp pulse spO2 language).1
        = .ok (postProcessContent (w.sprintfPlusV content))) ∧
    ((GetHealthSuggestion w temp pulse spO2 language).1
        = .error "no suggestions returned from Gemini" ↔
      resp.Candidates = [] ∨ ∃ rest, resp.Candidates = ⟨none⟩ :: rest) := by
  have hg := GetHealthSuggestion_of_returns h
  rw [hg]
  rcases hc : resp.Candidates with _ | ⟨⟨_ | content⟩, rest⟩
  · simp
  · simp
  · simp

/-- C8, amended, in a world whose API returns one candidate with content. -/
theorem C8_first_candidate_witness :
    ApiCallReturns (worldWith [⟨some ⟨["Stay hydrated."], "model"⟩⟩])
      sampleRequest.Temp sampleRequest.Pulse sampleRequest.SpO2 sampleRequest.Language
      ⟨[⟨some ⟨["Stay hydrated."], "model"⟩⟩]⟩ ∧
    (GetHealthSuggestion (worldWith [⟨some ⟨["Stay hydrated."], "model"⟩⟩])
      sampleRequest.Temp sampleRequest.Pulse sampleRequest.SpO2 sampleRequest.Language).1
      = .ok (postProcessContent "&\x7bParts:[Stay hydrated.] Role:model\x7d") :=
  ⟨⟨rfl, by decide, rfl, rfl⟩,
    (C8_first_candidate (worldWith [⟨some ⟨["Stay hydrated."], "model"⟩⟩])
      sampleRequest.Temp sampleRequest.Pulse sampleRequest.SpO2 sampleRequest.Language
      ⟨[⟨some ⟨["Stay hydrated."], "model"⟩⟩]⟩ ⟨rfl, by decide, rfl, rfl⟩).1
      ⟨["Stay hydrated."], "model"⟩ [] rfl⟩

end HealthMonitor
